import Mathlib

/-!
Shallow embedding of the CAN firmware fragmentation/reassembly protocol
(src/sender.cpp, src/receiver.cpp).

Conventions of the embedding:
- machine integers are modelled as `Nat` with explicit `% 256` where the C
  code stores into a `uint8_t` (frame data bytes, sequence counters);
- a CAN frame is its identifier, its data-length code and its data bytes;
- the receiver globals (`expectedLen`, `receivedLen`, `nextSeq`,
  `assembling`, `buffer`) form an explicit state record; the accumulation
  buffer is modelled by the list of bytes written so far,
  `buffer[0..receivedLen)`, together with the list of raw indices every
  call writes into `buffer` (used to reason about bounds);
- the MCP2515 link driver is an oracle `Nat → MCPError` giving the result
  of the n-th `sendMessage` call of the run.
-/

-- ---------------------------------------------------------------------
-- Constants shared by sender.cpp and receiver.cpp
-- ---------------------------------------------------------------------

def CAN_BASE_ID : Nat := 0x200

def FRAME_MAGIC_START : Nat := 0xAA

def FRAME_MAGIC_CONT : Nat := 0xCC

-- receiver.cpp: static const uint16_t MAX_MESSAGE = 2048;
def MAX_MESSAGE : Nat := 2048

-- sender.cpp sendFrame: const int maxRetries = 50;
def maxRetries : Nat := 50

-- ---------------------------------------------------------------------
-- Frames
-- ---------------------------------------------------------------------

structure can_frame where
  can_id : Nat
  can_dlc : Nat
  data : List Nat
deriving DecidableEq

-- `frm.data[i]` in C reads a `uint8_t`; out-of-range reads default to 0.
def byteAt (frm : can_frame) (i : Nat) : Nat :=
  frm.data.getD i 0 % 256

-- ---------------------------------------------------------------------
-- Receiver state machine (receiver.cpp)
-- ---------------------------------------------------------------------

structure RxState where
  expectedLen : Nat
  receivedLen : Nat
  nextSeq : Nat
  assembling : Bool
  buf : List Nat
deriving DecidableEq

-- receiver.cpp resetAssembly(): zero the counters; the buffer model (the
-- accumulated prefix) becomes empty because receivedLen is zeroed.
def resetAssembly : RxState :=
  { expectedLen := 0, receivedLen := 0, nextSeq := 0, assembling := false, buf := [] }

-- the C globals are zero-initialized, identical to a reset state
def initRxState : RxState := resetAssembly

inductive RxOutput where
  | progress
  | complete (msg : List Nat)
  | startTooShort
  | exceedsCapacity
  | unexpectedCont
  | contTooShort
  | seqMismatch
  | unknownMagic
deriving DecidableEq

structure StepResult where
  st : RxState
  out : RxOutput
  writes : List Nat
deriving DecidableEq

-- receiver.cpp handleStartFrame
def handleStartFrame (st : RxState) (frm : can_frame) : StepResult :=
  if frm.can_dlc < 4 then
    { st := st, out := RxOutput.startTooShort, writes := [] }
  else
    let expectedLen := byteAt frm 1 + byteAt frm 2 * 256
    if MAX_MESSAGE < expectedLen then
      { st := resetAssembly, out := RxOutput.exceedsCapacity, writes := [] }
    else
      let payload := frm.can_dlc - 4
      let chunk := (List.range payload).map (fun i => byteAt frm (4 + i))
      if expectedLen ≤ payload then
        { st := resetAssembly, out := RxOutput.complete chunk,
          writes := List.range' 0 payload ++ [payload] }
      else
        { st := { expectedLen := expectedLen, receivedLen := payload, nextSeq := 1,
                  assembling := true, buf := chunk },
          out := RxOutput.progress, writes := List.range' 0 payload }

-- receiver.cpp handleContFrame; the copy loop
-- `for (i = 0; i < payload && receivedLen < expectedLen; ++i)`
-- copies exactly `min payload (expectedLen - receivedLen)` bytes.
def handleContFrame (st : RxState) (frm : can_frame) : StepResult :=
  if st.assembling = false then
    { st := st, out := RxOutput.unexpectedCont, writes := [] }
  else if frm.can_dlc < 2 then
    { st := resetAssembly, out := RxOutput.contTooShort, writes := [] }
  else
    let seq := byteAt frm 1
    if seq ≠ st.nextSeq then
      { st := resetAssembly, out := RxOutput.seqMismatch, writes := [] }
    else
      let payload := frm.can_dlc - 2
      let cnt := min payload (st.expectedLen - st.receivedLen)
      let chunk := (List.range cnt).map (fun i => byteAt frm (2 + i))
      let newLen := st.receivedLen + cnt
      if st.expectedLen ≤ newLen then
        { st := resetAssembly, out := RxOutput.complete (st.buf ++ chunk),
          writes := List.range' st.receivedLen cnt ++ [newLen] }
      else
        { st := { expectedLen := st.expectedLen, receivedLen := newLen,
                  nextSeq := (st.nextSeq + 1) % 256, assembling := true,
                  buf := st.buf ++ chunk },
          out := RxOutput.progress, writes := List.range' st.receivedLen cnt }

-- receiver.cpp loop(): dispatch on data[0] after the identifier filter
def processFrame (st : RxState) (frm : can_frame) : StepResult :=
  let magic := byteAt frm 0
  if magic = FRAME_MAGIC_START then handleStartFrame st frm
  else if magic = FRAME_MAGIC_CONT then handleContFrame st frm
  else { st := st, out := RxOutput.unknownMagic, writes := [] }

-- feed a list of frames through the receiver in order, collecting the
-- per-frame outputs and all buffer write indices
def runFrames (st : RxState) (fs : List can_frame) : RxState × List RxOutput × List Nat :=
  match fs with
  | [] => (st, [], [])
  | f :: rest =>
    let r := processFrame st f
    let rec2 := runFrames r.st rest
    (rec2.1, r.out :: rec2.2.1, r.writes ++ rec2.2.2)

-- ---------------------------------------------------------------------
-- Sender (sender.cpp)
-- ---------------------------------------------------------------------

inductive MCPError where
  | ERROR_OK
  | ERROR_ALLTXBUSY
  | ERROR_FAILINIT
  | ERROR_FAILTX
deriving DecidableEq

inductive SendResult where
  | sentOk
  | busyTimeout
  | fatal (e : MCPError)
deriving DecidableEq

-- sender.cpp sendFrame retry loop; `calls` counts sendMessage invocations,
-- the second component of the result is the updated call counter
def sendFrameLoop (link : Nat → MCPError) (calls : Nat) : Nat → SendResult × Nat
  | 0 => (SendResult.busyTimeout, calls)
  | rem + 1 =>
    match link calls with
    | MCPError.ERROR_OK => (SendResult.sentOk, calls + 1)
    | MCPError.ERROR_ALLTXBUSY => sendFrameLoop link (calls + 1) rem
    | e => (SendResult.fatal e, calls + 1)

def sendFrame (link : Nat → MCPError) (calls : Nat) : SendResult × Nat :=
  sendFrameLoop link calls maxRetries

-- sender.cpp sendMessageTo continuation-frame loop, with a fuel argument
-- for structural recursion; each iteration consumes at least one byte of
-- the message, so fuel = len always suffices.  Returns (success, call
-- counter, frames handed to the link).
def sendContLoop (link : Nat → MCPError) (canId : Nat) (data : List Nat) (len : Nat) :
    Nat → Nat → Nat → Nat → Bool × Nat × List can_frame
  | 0, _, offset, calls => (decide (len ≤ offset), calls, [])
  | fuel + 1, seq, offset, calls =>
    if offset < len then
      let seq2 := (seq + 1) % 256
      let chunk := min (len - offset) 6
      let frm : can_frame :=
        { can_id := canId, can_dlc := 2 + chunk,
          data := [FRAME_MAGIC_CONT, seq2] ++
            (List.range chunk).map (fun i => data.getD (offset + i) 0 % 256) }
      match sendFrame link calls with
      | (SendResult.sentOk, calls2) =>
        let r := sendContLoop link canId data len fuel seq2 (offset + chunk) calls2
        (r.1, r.2.1, frm :: r.2.2)
      | (_, calls2) => (false, calls2, [])
    else (true, calls, [])

-- sender.cpp sendMessageTo
def sendMessageTo (link : Nat → MCPError) (targetId : Nat) (data : List Nat) (len : Nat)
    (calls : Nat) : Bool × Nat × List can_frame :=
  if targetId < 1 ∨ 5 < targetId then (false, calls, [])
  else if 65535 < len then (false, calls, [])
  else
    let canId := CAN_BASE_ID + targetId
    let firstChunk := if 4 ≤ len then 4 else len
    let startFrm : can_frame :=
      { can_id := canId, can_dlc := 4 + firstChunk,
        data := [FRAME_MAGIC_START, len % 256, len / 256 % 256, 0] ++
          (List.range firstChunk).map (fun i => data.getD i 0 % 256) }
    match sendFrame link calls with
    | (SendResult.sentOk, calls2) =>
      let r := sendContLoop link canId data len len 0 firstChunk calls2
      (r.1, r.2.1, startFrm :: r.2.2)
    | (_, calls2) => (false, calls2, [])

-- a link that never reports an error
def allOk : Nat → MCPError := fun _ => MCPError.ERROR_OK

-- ---------------------------------------------------------------------
-- Basic lemmas
-- ---------------------------------------------------------------------

theorem runFrames_cons (st : RxState) (f : can_frame) (fs : List can_frame) :
    runFrames st (f :: fs) =
      ((runFrames (processFrame st f).st fs).1,
       (processFrame st f).out :: (runFrames (processFrame st f).st fs).2.1,
       (processFrame st f).writes ++ (runFrames (processFrame st f).st fs).2.2) := rfl

theorem sendFrame_allOk (c : Nat) : sendFrame allOk c = (SendResult.sentOk, c + 1) := rfl

-- the receiver state invariant: receivedLen never exceeds expectedLen
-- after a transition (the handlers reset on completion)

theorem handleStartFrame_inv (st : RxState) (frm : can_frame)
    (h : st.receivedLen ≤ st.expectedLen) :
    (handleStartFrame st frm).st.receivedLen ≤ (handleStartFrame st frm).st.expectedLen := by
  unfold handleStartFrame
  dsimp only
  split
  · exact h
  · split
    · exact Nat.le_refl 0
    · split
      · exact Nat.le_refl 0
      · rename_i hle
        exact Nat.le_of_not_le hle

theorem handleContFrame_inv (st : RxState) (frm : can_frame)
    (h : st.receivedLen ≤ st.expectedLen) :
    (handleContFrame st frm).st.receivedLen ≤ (handleContFrame st frm).st.expectedLen := by
  unfold handleContFrame
  dsimp only
  split
  · exact h
  · split
    · exact Nat.le_refl 0
    · split
      · exact Nat.le_refl 0
      · split
        · exact Nat.le_refl 0
        · rename_i hle
          exact Nat.le_of_not_le hle

theorem processFrame_inv (st : RxState) (frm : can_frame)
    (h : st.receivedLen ≤ st.expectedLen) :
    (processFrame st frm).st.receivedLen ≤ (processFrame st frm).st.expectedLen := by
  unfold processFrame
  dsimp only
  split
  · exact handleStartFrame_inv st frm h
  · split
    · exact handleContFrame_inv st frm h
    · exact h

theorem runFrames_inv (fs : List can_frame) : ∀ st : RxState,
    st.receivedLen ≤ st.expectedLen →
    (runFrames st fs).1.receivedLen ≤ (runFrames st fs).1.expectedLen := by
  induction fs with
  | nil => intro st h; exact h
  | cons f rest ih =>
    intro st h
    rw [runFrames_cons]
    exact ih _ (processFrame_inv st f h)

-- ---------------------------------------------------------------------
-- Claim C2
-- ---------------------------------------------------------------------

/-- Claim C2: for every sequence of frames consumed by the Reassembler,
`0 ≤ receivedLen ≤ expectedLen` holds after every transition (any frame
sequence from the initial state, hence after any prefix of a run). -/
theorem spec_C2 (fs : List can_frame) :
    0 ≤ (runFrames initRxState fs).1.receivedLen ∧
    (runFrames initRxState fs).1.receivedLen ≤ (runFrames initRxState fs).1.expectedLen :=
  ⟨Nat.zero_le _, runFrames_inv fs initRxState (Nat.le_refl 0)⟩

-- ---------------------------------------------------------------------
-- Claim C3 (corrected)
-- ---------------------------------------------------------------------

/-- Claim C3 counterexample: a start frame shorter than the 4-byte header,
arriving during an in-progress assembly, does NOT abort it: handleStartFrame
returns with the state unchanged, so the Reassembler is still assembling
with nonzero counters, not Idle. -/
theorem spec_C3_cex :
    handleStartFrame
        { expectedLen := 10, receivedLen := 4, nextSeq := 1, assembling := true,
          buf := [65, 66, 67, 68] }
        { can_id := 0x201, can_dlc := 2, data := [170, 0, 0, 0, 0, 0, 0, 0] }
      = { st := { expectedLen := 10, receivedLen := 4, nextSeq := 1, assembling := true,
                  buf := [65, 66, 67, 68] },
          out := RxOutput.startTooShort, writes := [] } ∧
    ({ expectedLen := 10, receivedLen := 4, nextSeq := 1, assembling := true,
       buf := [65, 66, 67, 68] } : RxState).assembling = true := by
  exact ⟨rfl, rfl⟩

/-- Claim C3 (amended): a start frame with fewer than 4 header bytes is
reported and otherwise ignored: the Reassembler state is left exactly
unchanged (an in-progress assembly continues; an Idle state stays Idle). -/
theorem spec_C3_amended (st : RxState) (frm : can_frame) (h : frm.can_dlc < 4) :
    handleStartFrame st frm = { st := st, out := RxOutput.startTooShort, writes := [] } := by
  unfold handleStartFrame
  rw [if_pos h]

/-- Witness for spec_C3_amended at a concrete malformed frame. -/
theorem spec_C3_amended_witness :
    ({ can_id := 0x201, can_dlc := 2, data := [170, 0] } : can_frame).can_dlc < 4 ∧
    handleStartFrame
        { expectedLen := 10, receivedLen := 4, nextSeq := 1, assembling := true,
          buf := [65, 66, 67, 68] }
        { can_id := 0x201, can_dlc := 2, data := [170, 0] }
      = { st := { expectedLen := 10, receivedLen := 4, nextSeq := 1, assembling := true,
                  buf := [65, 66, 67, 68] },
          out := RxOutput.startTooShort, writes := [] } :=
  ⟨by decide, spec_C3_amended _ _ (by decide)⟩

-- ---------------------------------------------------------------------
-- Claim C7
-- ---------------------------------------------------------------------

set_option linter.unusedVariables false in
/-- Claim C7: a valid start frame (at least the 4 header bytes) arriving
while the Reassembler is Assembling is processed exactly as the
Idle + Start transition: the result does not depend on the prior state, so
the prior partial buffer and counters are discarded and a fresh assembly
begins from the new frame, with no error raised. -/
theorem spec_C7 (st : RxState) (frm : can_frame) (ha : st.assembling = true)
    (h : 4 ≤ frm.can_dlc) :
    handleStartFrame st frm = handleStartFrame initRxState frm := by
  have h4 : ¬ frm.can_dlc < 4 := by omega
  simp only [handleStartFrame, if_neg h4]

/-- Witness for spec_C7 at a concrete mid-assembly state and start frame. -/
theorem spec_C7_witness :
    ({ expectedLen := 10, receivedLen := 4, nextSeq := 1, assembling := true,
       buf := [1, 2, 3, 4] } : RxState).assembling = true ∧
    4 ≤ ({ can_id := 0x201, can_dlc := 8, data := [170, 12, 0, 0, 9, 9, 9, 9] } : can_frame).can_dlc ∧
    handleStartFrame
        { expectedLen := 10, receivedLen := 4, nextSeq := 1, assembling := true,
          buf := [1, 2, 3, 4] }
        { can_id := 0x201, can_dlc := 8, data := [170, 12, 0, 0, 9, 9, 9, 9] }
      = handleStartFrame initRxState
        { can_id := 0x201, can_dlc := 8, data := [170, 12, 0, 0, 9, 9, 9, 9] } :=
  ⟨rfl, by decide, spec_C7 _ _ rfl (by decide)⟩

-- ---------------------------------------------------------------------
-- Claim C8
-- ---------------------------------------------------------------------

theorem sendFrameLoop_busy : ∀ (rem c : Nat),
    sendFrameLoop (fun _ => MCPError.ERROR_ALLTXBUSY) c rem
      = (SendResult.busyTimeout, c + rem) := by
  intro rem
  induction rem with
  | zero => intro c; rfl
  | succ n ih =>
    intro c
    simp only [sendFrameLoop]
    rw [ih (c + 1)]
    congr 1
    omega

theorem sendFrameLoop_busy_then_ok : ∀ (k rem c : Nat) (link : Nat → MCPError),
    k < rem →
    (∀ j, j < k → link (c + j) = MCPError.ERROR_ALLTXBUSY) →
    link (c + k) = MCPError.ERROR_OK →
    sendFrameLoop link c rem = (SendResult.sentOk, c + k + 1) := by
  intro k
  induction k with
  | zero =>
    intro rem c link hrem hbusy hok
    cases rem with
    | zero => omega
    | succ r =>
      have hok0 : link c = MCPError.ERROR_OK := by simpa using hok
      simp only [sendFrameLoop, hok0]
  | succ k ih =>
    intro rem c link hrem hbusy hok
    cases rem with
    | zero => omega
    | succ r =>
      have hb0 : link c = MCPError.ERROR_ALLTXBUSY := by simpa using hbusy 0 (by omega)
      simp only [sendFrameLoop, hb0]
      have hrec := ih r (c + 1) link (by omega)
        (fun j hj => by
          have h2 : c + 1 + j = c + (j + 1) := by omega
          rw [h2]
          exact hbusy (j + 1) (by omega))
        (by
          have h2 : c + 1 + k = c + (k + 1) := by omega
          rw [h2]
          exact hok)
      rw [hrec]
      congr 1
      omega

/-- Claim C8: with the 50-attempt retry budget, a link that is Busy for the
first N-1 attempts and succeeds on attempt N (1 ≤ N ≤ 50) makes sendFrame
succeed after exactly N transmit calls; a link that is always Busy makes it
fail with BusyTimeout after the full budget of 50 calls; any other link
error makes it fail immediately (a single transmit call, no retry). -/
theorem spec_C8 (N : Nat) (e : MCPError) (h1 : 1 ≤ N) (h2 : N ≤ 50)
    (he1 : e ≠ MCPError.ERROR_OK) (he2 : e ≠ MCPError.ERROR_ALLTXBUSY) :
    sendFrame (fun i => if i + 1 < N then MCPError.ERROR_ALLTXBUSY else MCPError.ERROR_OK) 0
      = (SendResult.sentOk, N) ∧
    sendFrame (fun _ => MCPError.ERROR_ALLTXBUSY) 0 = (SendResult.busyTimeout, 50) ∧
    sendFrame (fun _ => e) 0 = (SendResult.fatal e, 1) := by
  refine ⟨?_, ?_, ?_⟩
  · have := sendFrameLoop_busy_then_ok (N - 1) 50 0
      (fun i => if i + 1 < N then MCPError.ERROR_ALLTXBUSY else MCPError.ERROR_OK)
      (by omega)
      (fun j hj => by simp only [Nat.zero_add]; rw [if_pos (by omega)])
      (by simp only [Nat.zero_add]; rw [if_neg (by omega)])
    unfold sendFrame maxRetries
    rw [this]
    congr 1
    omega
  · exact sendFrameLoop_busy 50 0
  · unfold sendFrame maxRetries
    cases e with
    | ERROR_OK => exact absurd rfl he1
    | ERROR_ALLTXBUSY => exact absurd rfl he2
    | ERROR_FAILINIT => rfl
    | ERROR_FAILTX => rfl

/-- Witness for spec_C8 at N = 3 and a transmit failure. -/
theorem spec_C8_witness :
    (1 ≤ 3 ∧ 3 ≤ 50) ∧
    (sendFrame (fun i => if i + 1 < 3 then MCPError.ERROR_ALLTXBUSY else MCPError.ERROR_OK) 0
        = (SendResult.sentOk, 3) ∧
      sendFrame (fun _ => MCPError.ERROR_ALLTXBUSY) 0 = (SendResult.busyTimeout, 50) ∧
      sendFrame (fun _ => MCPError.ERROR_FAILTX) 0
        = (SendResult.fatal MCPError.ERROR_FAILTX, 1)) :=
  ⟨⟨by omega, by omega⟩,
   spec_C8 3 MCPError.ERROR_FAILTX (by omega) (by omega) (by decide) (by decide)⟩

-- ---------------------------------------------------------------------
-- Claim C9
-- ---------------------------------------------------------------------

set_option maxRecDepth 4000 in
/-- Claim C9: sending a zero-length message to a valid destination emits
exactly one frame, a start frame with declared length 0 and no payload
bytes, and the Reassembler completes immediately with the empty message and
returns to the initial (Idle) state. -/
theorem spec_C9 (tid : Nat) (h1 : 1 ≤ tid) (h5 : tid ≤ 5) :
    sendMessageTo allOk tid [] 0 0
      = (true, 1, [{ can_id := 0x200 + tid, can_dlc := 4, data := [0xAA, 0, 0, 0] }]) ∧
    runFrames initRxState [{ can_id := 0x200 + tid, can_dlc := 4, data := [0xAA, 0, 0, 0] }]
      = (initRxState, [RxOutput.complete []], [0]) := by
  constructor
  · unfold sendMessageTo
    rw [if_neg (by omega)]
    rfl
  · rfl

/-- Witness for spec_C9 at destination 2. -/
theorem spec_C9_witness :
    (1 ≤ 2 ∧ 2 ≤ 5) ∧
    (sendMessageTo allOk 2 [] 0 0
        = (true, 1, [{ can_id := 0x200 + 2, can_dlc := 4, data := [0xAA, 0, 0, 0] }]) ∧
      runFrames initRxState [{ can_id := 0x200 + 2, can_dlc := 4, data := [0xAA, 0, 0, 0] }]
        = (initRxState, [RxOutput.complete []], [0])) :=
  ⟨⟨by omega, by omega⟩, spec_C9 2 (by omega) (by omega)⟩

-- ---------------------------------------------------------------------
-- List helpers for the round-trip proof
-- ---------------------------------------------------------------------

theorem range_map_getD (l : List Nat) (o n : Nat) (h : o + n ≤ l.length) :
    (List.range n).map (fun i => l.getD (o + i) 0) = (l.drop o).take n := by
  apply List.ext_getElem
  · simp only [List.length_map, List.length_range, List.length_take, List.length_drop]
    omega
  · intro i h1 h2
    simp only [List.getElem_map, List.getElem_range, List.getElem_take, List.getElem_drop]
    simp only [List.length_take, List.length_drop] at h2
    exact List.getD_eq_getElem _ _ (by omega)

-- reading the payload region of a built frame returns the payload list
theorem map_range_getD_mod (pre plist : List Nat) (k : Nat) (hk : k = pre.length)
    (hlt : ∀ x ∈ plist, x < 256) :
    (List.range plist.length).map (fun i => (pre ++ plist).getD (k + i) 0 % 256) = plist := by
  apply List.ext_getElem
  · simp only [List.length_map, List.length_range]
  · intro i h1 h2
    simp only [List.getElem_map, List.getElem_range]
    rw [List.getD_append_right _ _ _ _ (by omega)]
    have hi : k + i - pre.length = i := by omega
    rw [hi]
    rw [List.getD_eq_getElem _ _ h2]
    exact Nat.mod_eq_of_lt (hlt _ (List.getElem_mem h2))

theorem plist_lt (data : List Nat) (offset chunk : Nat) :
    ∀ x ∈ (List.range chunk).map (fun i => data.getD (offset + i) 0 % 256), x < 256 := by
  intro x hx
  rcases List.mem_map.1 hx with ⟨i, _, rfl⟩
  exact Nat.mod_lt _ (by omega)

theorem plist_eq_take_drop (data : List Nat) (offset chunk : Nat)
    (h : offset + chunk ≤ data.length) :
    (List.range chunk).map (fun i => data.getD (offset + i) 0 % 256)
      = ((data.drop offset).take chunk).map (· % 256) := by
  have h1 : (List.range chunk).map (fun i => data.getD (offset + i) 0 % 256)
      = ((List.range chunk).map (fun i => data.getD (offset + i) 0)).map (· % 256) := by
    rw [List.map_map]
    rfl
  rw [h1, range_map_getD _ _ _ h]

theorem buf_extend (data : List Nat) (offset chunk : Nat)
    (h : offset + chunk ≤ data.length) :
    (data.take offset).map (· % 256)
        ++ (List.range chunk).map (fun i => data.getD (offset + i) 0 % 256)
      = (data.take (offset + chunk)).map (· % 256) := by
  rw [plist_eq_take_drop data offset chunk h, List.take_add, List.map_append]

-- ---------------------------------------------------------------------
-- Generic receiver-step lemmas
-- ---------------------------------------------------------------------

-- a well-formed continuation frame carrying the expected sequence number
theorem processFrame_cont_accept (st : RxState) (canId dlc s : Nat) (plist : List Nat)
    (ha : st.assembling = true) (hs : s < 256) (hsn : st.nextSeq = s)
    (hp : ∀ x ∈ plist, x < 256) (hdlc : dlc = 2 + plist.length)
    (hfit : plist.length ≤ st.expectedLen - st.receivedLen) :
    processFrame st { can_id := canId, can_dlc := dlc, data := FRAME_MAGIC_CONT :: s :: plist }
      = if st.expectedLen ≤ st.receivedLen + plist.length then
          { st := resetAssembly, out := RxOutput.complete (st.buf ++ plist),
            writes := List.range' st.receivedLen plist.length
              ++ [st.receivedLen + plist.length] }
        else
          { st := { expectedLen := st.expectedLen,
                    receivedLen := st.receivedLen + plist.length,
                    nextSeq := (st.nextSeq + 1) % 256, assembling := true,
                    buf := st.buf ++ plist },
            out := RxOutput.progress,
            writes := List.range' st.receivedLen plist.length } := by
  have hb0 : byteAt ⟨canId, dlc, FRAME_MAGIC_CONT :: s :: plist⟩ 0 = FRAME_MAGIC_CONT := by
    simp [byteAt, FRAME_MAGIC_CONT]
  have hb1 : byteAt ⟨canId, dlc, FRAME_MAGIC_CONT :: s :: plist⟩ 1 = s := by
    simp [byteAt, Nat.mod_eq_of_lt hs]
  unfold processFrame
  dsimp only
  rw [hb0]
  rw [if_neg (by norm_num [FRAME_MAGIC_CONT, FRAME_MAGIC_START])]
  rw [if_pos rfl]
  unfold handleContFrame
  dsimp only
  rw [ha]
  rw [if_neg (by simp)]
  rw [if_neg (by omega)]
  rw [hb1, hsn]
  rw [if_neg (by simp)]
  have hcnt : min (dlc - 2) (st.expectedLen - st.receivedLen) = plist.length := by omega
  rw [hcnt]
  have hchunkeq : (List.range plist.length).map
        (fun i => byteAt ⟨canId, dlc, FRAME_MAGIC_CONT :: s :: plist⟩ (2 + i)) = plist := by
    have h2 : (2 : Nat) = [FRAME_MAGIC_CONT, s].length := rfl
    have := map_range_getD_mod [FRAME_MAGIC_CONT, s] plist 2 h2 hp
    simp only [List.cons_append, List.nil_append] at this
    exact this
  rw [hchunkeq]

-- a well-formed start frame
theorem processFrame_start (st : RxState) (canId dlc lo hi : Nat) (plist : List Nat)
    (hlo : lo < 256) (hhi : hi < 256) (hp : ∀ x ∈ plist, x < 256)
    (hdlc : dlc = 4 + plist.length) :
    processFrame st
        { can_id := canId, can_dlc := dlc, data := FRAME_MAGIC_START :: lo :: hi :: 0 :: plist }
      = if MAX_MESSAGE < lo + hi * 256 then
          { st := resetAssembly, out := RxOutput.exceedsCapacity, writes := [] }
        else if lo + hi * 256 ≤ plist.length then
          { st := resetAssembly, out := RxOutput.complete plist,
            writes := List.range' 0 plist.length ++ [plist.length] }
        else
          { st := { expectedLen := lo + hi * 256, receivedLen := plist.length,
                    nextSeq := 1, assembling := true, buf := plist },
            out := RxOutput.progress, writes := List.range' 0 plist.length } := by
  have hb0 : byteAt ⟨canId, dlc, FRAME_MAGIC_START :: lo :: hi :: 0 :: plist⟩ 0
      = FRAME_MAGIC_START := by
    simp [byteAt, FRAME_MAGIC_START]
  have hb1 : byteAt ⟨canId, dlc, FRAME_MAGIC_START :: lo :: hi :: 0 :: plist⟩ 1 = lo := by
    simp [byteAt, Nat.mod_eq_of_lt hlo]
  have hb2 : byteAt ⟨canId, dlc, FRAME_MAGIC_START :: lo :: hi :: 0 :: plist⟩ 2 = hi := by
    simp [byteAt, Nat.mod_eq_of_lt hhi]
  unfold processFrame
  dsimp only
  rw [hb0]
  rw [if_pos rfl]
  unfold handleStartFrame
  dsimp only
  rw [if_neg (by omega)]
  rw [hb1, hb2]
  have hpl : dlc - 4 = plist.length := by omega
  rw [hpl]
  have hchunkeq : (List.range plist.length).map
        (fun i => byteAt ⟨canId, dlc, FRAME_MAGIC_START :: lo :: hi :: 0 :: plist⟩ (4 + i))
        = plist := by
    have h4 : (4 : Nat) = [FRAME_MAGIC_START, lo, hi, 0].length := rfl
    have := map_range_getD_mod [FRAME_MAGIC_START, lo, hi, 0] plist 4 h4 hp
    simp only [List.cons_append, List.nil_append] at this
    exact this
  rw [hchunkeq]

-- ---------------------------------------------------------------------
-- Sender-side unfolding lemmas
-- ---------------------------------------------------------------------

theorem sendContLoop_done (link : Nat → MCPError) (canId : Nat) (data : List Nat)
    (len fuel seq offset calls : Nat) (h : len ≤ offset) :
    sendContLoop link canId data len fuel seq offset calls = (true, calls, []) := by
  cases fuel with
  | zero => simp [sendContLoop, h]
  | succ n => simp [sendContLoop, Nat.not_lt.2 h]

theorem range'_glue (s m n : Nat) :
    List.range' s m ++ List.range' (s + m) n = List.range' s (m + n) := by
  have h := List.range'_append s m n 1
  rw [Nat.one_mul] at h
  rw [h, Nat.add_comm]

theorem sendContLoop_step (canId : Nat) (data : List Nat) (len fuel seq offset calls : Nat)
    (h : offset < len) :
    sendContLoop allOk canId data len (fuel + 1) seq offset calls
      = ((sendContLoop allOk canId data len fuel ((seq + 1) % 256)
            (offset + min (len - offset) 6) (calls + 1)).1,
         (sendContLoop allOk canId data len fuel ((seq + 1) % 256)
            (offset + min (len - offset) 6) (calls + 1)).2.1,
         { can_id := canId, can_dlc := 2 + min (len - offset) 6,
           data := [FRAME_MAGIC_CONT, (seq + 1) % 256] ++
             (List.range (min (len - offset) 6)).map
               (fun i => data.getD (offset + i) 0 % 256) }
           :: (sendContLoop allOk canId data len fuel ((seq + 1) % 256)
               (offset + min (len - offset) 6) (calls + 1)).2.2) := by
  rw [sendContLoop]
  rw [if_pos h]
  rfl

-- ---------------------------------------------------------------------
-- Round trip: the continuation phase
-- ---------------------------------------------------------------------

theorem contPhase (data : List Nat) (canId len : Nat) (hd : data.length = len) :
    ∀ fuel offset seq c, len - offset ≤ fuel → offset < len →
    (sendContLoop allOk canId data len fuel seq offset c).1 = true ∧
    (sendContLoop allOk canId data len fuel seq offset c).2.2.length
      = (len - offset + 5) / 6 ∧
    runFrames
        { expectedLen := len, receivedLen := offset, nextSeq := (seq + 1) % 256,
          assembling := true, buf := (data.take offset).map (· % 256) }
        (sendContLoop allOk canId data len fuel seq offset c).2.2
      = (resetAssembly,
         List.replicate ((len - offset + 5) / 6 - 1) RxOutput.progress
           ++ [RxOutput.complete (data.map (· % 256))],
         List.range' offset (len - offset) ++ [len]) := by
  intro fuel
  induction fuel with
  | zero => intro offset seq c h1 h2; omega
  | succ fuel ih =>
    intro offset seq c h1 h2
    rw [sendContLoop_step canId data len fuel seq offset c h2]
    have hmle : min (len - offset) 6 ≤ len - offset := Nat.min_le_left _ _
    have hstep := processFrame_cont_accept
      { expectedLen := len, receivedLen := offset, nextSeq := (seq + 1) % 256,
        assembling := true, buf := (data.take offset).map (· % 256) }
      canId (2 + min (len - offset) 6) ((seq + 1) % 256)
      ((List.range (min (len - offset) 6)).map (fun i => data.getD (offset + i) 0 % 256))
      rfl (Nat.mod_lt _ (by omega)) rfl
      (plist_lt data offset (min (len - offset) 6))
      (by simp)
      (by simp only [List.length_map, List.length_range]; omega)
    simp only [List.length_map, List.length_range] at hstep
    by_cases hfin : len ≤ offset + min (len - offset) 6
    · -- final frame: the recursion stops at offset = len
      have hm : min (len - offset) 6 = len - offset := by omega
      have hoff2 : offset + min (len - offset) 6 = len := by omega
      rw [sendContLoop_done allOk canId data len fuel _ _ _ (by omega)]
      dsimp only
      refine ⟨rfl, by simp only [List.length_cons, List.length_nil]; omega, ?_⟩
      rw [runFrames_cons]
      simp only [List.cons_append, List.nil_append] at hstep ⊢
      rw [hstep]
      rw [if_pos hfin]
      dsimp only
      simp only [runFrames]
      have htl : List.take len data = data := by
        rw [← hd]
        exact List.take_length data
      have hbuf : (data.take offset).map (· % 256) ++
          (List.range (min (len - offset) 6)).map (fun i => data.getD (offset + i) 0 % 256)
          = data.map (· % 256) := by
        rw [buf_extend data offset (min (len - offset) 6) (by omega), hoff2, htl]
      rw [hbuf]
      have hn1 : (len - offset + 5) / 6 - 1 = 0 := by omega
      rw [hn1]
      simp only [List.replicate, List.nil_append, List.append_nil]
      rw [hm]
      have h3 : offset + (len - offset) = len := by omega
      rw [h3]
    · -- intermediate frame: chunk is 6 and the recursion continues
      have hm : min (len - offset) 6 = 6 := by omega
      have hrec := ih (offset + min (len - offset) 6) ((seq + 1) % 256) (c + 1)
        (by omega) (by omega)
      obtain ⟨hok, hlen2, hrun⟩ := hrec
      dsimp only
      refine ⟨hok, ?_, ?_⟩
      · simp only [List.length_cons, hlen2]
        omega
      · rw [runFrames_cons]
        simp only [List.cons_append, List.nil_append] at hstep ⊢
        rw [hstep]
        rw [if_neg hfin]
        dsimp only
        have hbuf : (data.take offset).map (· % 256) ++
            (List.range (min (len - offset) 6)).map
              (fun i => data.getD (offset + i) 0 % 256)
            = (data.take (offset + min (len - offset) 6)).map (· % 256) := by
          rw [buf_extend data offset (min (len - offset) 6) (by omega)]
        rw [hbuf]
        rw [hrun]
        have hcount : (len - offset + 5) / 6 - 1
            = ((len - (offset + min (len - offset) 6) + 5) / 6 - 1) + 1 := by omega
        rw [hcount, List.replicate_succ, List.cons_append]
        have hwr : List.range' offset (min (len - offset) 6)
              ++ (List.range' (offset + min (len - offset) 6)
                    (len - (offset + min (len - offset) 6)) ++ [len])
            = List.range' offset (len - offset) ++ [len] := by
          rw [← List.append_assoc, range'_glue]
          have : min (len - offset) 6 + (len - (offset + min (len - offset) 6))
              = len - offset := by omega
          rw [this]
        rw [hwr]

theorem cons_replicate_append {α : Type} (a : α) (n : Nat) (l : List α) (h : 1 ≤ n) :
    a :: (List.replicate (n - 1) a ++ l) = List.replicate n a ++ l := by
  conv_rhs => rw [show n = (n - 1) + 1 by omega]
  rw [List.replicate_succ, List.cons_append]

theorem range'_glue_zero (m n : Nat) :
    List.range' 0 m ++ List.range' m n = List.range' 0 (m + n) := by
  have h := range'_glue 0 m n
  rw [Nat.zero_add] at h
  exact h

theorem plist_zero_eq (data : List Nat) (n : Nat) (h : n ≤ data.length) :
    (List.range n).map (fun i => data.getD i 0 % 256) = (data.take n).map (· % 256) := by
  have h1 : (List.range n).map (fun i => data.getD i 0 % 256)
      = (List.range n).map (fun i => data.getD (0 + i) 0 % 256) := by
    simp only [Nat.zero_add]
  rw [h1, plist_eq_take_drop data 0 n (by omega), List.drop_zero]

-- the whole round trip: every message of length at most the receive
-- capacity, sent over a fault-free link, reassembles to the original
theorem roundTrip_core (data : List Nat) (len tid c : Nat) (hd : data.length = len)
    (hcap : len ≤ MAX_MESSAGE) (ht1 : 1 ≤ tid) (ht5 : tid ≤ 5) :
    (sendMessageTo allOk tid data len c).1 = true ∧
    runFrames initRxState (sendMessageTo allOk tid data len c).2.2
      = (resetAssembly,
         List.replicate ((len - min len 4 + 5) / 6) RxOutput.progress
           ++ [RxOutput.complete (data.map (· % 256))],
         List.range' 0 len ++ [len]) := by
  have hlen65535 : ¬ 65535 < len := by
    have : MAX_MESSAGE = 2048 := rfl
    omega
  have hdec : len % 256 + len / 256 % 256 * 256 = len := by
    have : MAX_MESSAGE = 2048 := rfl
    omega
  have hlo : len % 256 < 256 := Nat.mod_lt _ (by omega)
  have hhi : len / 256 % 256 < 256 := Nat.mod_lt _ (by omega)
  unfold sendMessageTo
  rw [if_neg (show ¬ (tid < 1 ∨ 5 < tid) by omega)]
  rw [if_neg hlen65535]
  dsimp only
  rw [sendFrame_allOk c]
  dsimp only
  by_cases hsmall : len ≤ 4
  · -- the whole message fits in the start frame
    have hfc : (if 4 ≤ len then 4 else len) = len := by
      split <;> omega
    rw [hfc]
    rw [sendContLoop_done allOk (CAN_BASE_ID + tid) data len len 0 len (c + 1)
      (Nat.le_refl len)]
    dsimp only
    refine ⟨rfl, ?_⟩
    rw [runFrames_cons]
    have hstart := processFrame_start initRxState (CAN_BASE_ID + tid) (4 + len)
      (len % 256) (len / 256 % 256)
      ((List.range len).map (fun i => data.getD i 0 % 256))
      hlo hhi (by intro x hx; rcases List.mem_map.1 hx with ⟨i, _, rfl⟩; exact Nat.mod_lt _ (by omega))
      (by simp)
    simp only [List.length_map, List.length_range] at hstart
    rw [hdec] at hstart
    simp only [List.cons_append, List.nil_append] at hstart ⊢
    rw [hstart]
    rw [if_neg (by omega), if_pos (Nat.le_refl len)]
    dsimp only
    simp only [runFrames]
    have hplz : (List.range len).map (fun i => data.getD i 0 % 256)
        = data.map (· % 256) := by
      rw [plist_zero_eq data len (by omega)]
      rw [show List.take len data = data from by rw [← hd]; exact List.take_length data]
    rw [hplz]
    have hn0 : (len - min len 4 + 5) / 6 = 0 := by omega
    rw [hn0]
    simp only [List.replicate, List.nil_append, List.append_nil]
  · -- start frame carries 4 bytes, the rest goes in continuation frames
    have hfc : (if 4 ≤ len then 4 else len) = 4 := if_pos (by omega)
    rw [hfc]
    have hcont := contPhase data (CAN_BASE_ID + tid) len hd len 4 0 (c + 1)
      (by omega) (by omega)
    obtain ⟨hok, hlen2, hrun⟩ := hcont
    refine ⟨hok, ?_⟩
    rw [runFrames_cons]
    have hstart := processFrame_start initRxState (CAN_BASE_ID + tid) (4 + 4)
      (len % 256) (len / 256 % 256)
      ((List.range 4).map (fun i => data.getD i 0 % 256))
      hlo hhi (by intro x hx; rcases List.mem_map.1 hx with ⟨i, _, rfl⟩; exact Nat.mod_lt _ (by omega))
      (by simp)
    simp only [List.length_map, List.length_range] at hstart
    rw [hdec] at hstart
    simp only [List.cons_append, List.nil_append] at hstart ⊢
    rw [hstart]
    rw [if_neg (by omega), if_neg (by omega)]
    dsimp only
    have hplz : (List.range 4).map (fun i => data.getD i 0 % 256)
        = (data.take 4).map (· % 256) := plist_zero_eq data 4 (by omega)
    rw [hplz]
    rw [show (1 : Nat) = (0 + 1) % 256 from rfl]
    rw [hrun]
    have hmin : min len 4 = 4 := by omega
    rw [hmin]
    rw [cons_replicate_append _ _ _ (by omega)]
    rw [← List.append_assoc, range'_glue_zero]
    rw [show 4 + (len - 4) = len from by omega]

-- ---------------------------------------------------------------------
-- Shape of the emitted continuation frames (for the sequence-number claim)
-- ---------------------------------------------------------------------

-- the k-th continuation frame (0-based) the sender emits from base
-- offset/seq: it carries min(remaining, 6) bytes and sequence number
-- (seq + k + 1) mod 256 (seq is a uint8_t in sender.cpp)
def contFrameAt (canId : Nat) (data : List Nat) (len seq offset k : Nat) : can_frame :=
  { can_id := canId, can_dlc := 2 + min (len - (offset + 6 * k)) 6,
    data := [FRAME_MAGIC_CONT, (seq + k + 1) % 256] ++
      (List.range (min (len - (offset + 6 * k)) 6)).map
        (fun i => data.getD (offset + 6 * k + i) 0 % 256) }

theorem contFrameAt_shift (canId : Nat) (data : List Nat) (len seq offset k : Nat) :
    contFrameAt canId data len ((seq + 1) % 256) (offset + 6) k
      = contFrameAt canId data len seq offset (k + 1) := by
  unfold contFrameAt
  have h1 : offset + 6 + 6 * k = offset + 6 * (k + 1) := by ring
  have h2 : ((seq + 1) % 256 + k + 1) % 256 = (seq + (k + 1) + 1) % 256 := by omega
  rw [h1, h2]

theorem sendContLoop_shape (data : List Nat) (canId len : Nat) :
    ∀ fuel offset seq c, len - offset ≤ fuel →
    (sendContLoop allOk canId data len fuel seq offset c).2.2.length
      = (len - offset + 5) / 6 ∧
    ∀ k, k < (sendContLoop allOk canId data len fuel seq offset c).2.2.length →
      (sendContLoop allOk canId data len fuel seq offset c).2.2.getD k ⟨0, 0, []⟩
        = contFrameAt canId data len seq offset k := by
  intro fuel
  induction fuel with
  | zero =>
    intro offset seq c h1
    rw [sendContLoop_done allOk canId data len 0 seq offset c (by omega)]
    refine ⟨by simp only [List.length_nil]; omega, ?_⟩
    intro k hk
    simp only [List.length_nil] at hk
    omega
  | succ fuel ih =>
    intro offset seq c h1
    by_cases h2 : offset < len
    · rw [sendContLoop_step canId data len fuel seq offset c h2]
      dsimp only
      obtain ⟨hlen2, hsh⟩ := ih (offset + min (len - offset) 6) ((seq + 1) % 256) (c + 1)
        (by omega)
      refine ⟨by simp only [List.length_cons, hlen2]; omega, ?_⟩
      intro k hk
      cases k with
      | zero =>
        simp only [List.getD_cons_zero]
        unfold contFrameAt
        have h0 : offset + 6 * 0 = offset := by ring
        rw [h0]
      | succ k =>
        simp only [List.getD_cons_succ]
        simp only [List.length_cons, hlen2] at hk
        have hrest1 : 1 ≤ (len - (offset + min (len - offset) 6) + 5) / 6 := by omega
        have hm : min (len - offset) 6 = 6 := by omega
        rw [hsh k (by rw [hlen2]; omega)]
        rw [hm]
        exact contFrameAt_shift canId data len seq offset k
    · rw [sendContLoop_done allOk canId data len (fuel + 1) seq offset c (by omega)]
      refine ⟨by simp only [List.length_nil]; omega, ?_⟩
      intro k hk
      simp only [List.length_nil] at hk
      omega

-- the frames sendMessageTo hands to a fault-free link: one start frame and
-- then the continuation frames described by contFrameAt
theorem sendMessageTo_shape (data : List Nat) (len tid c : Nat) (hd : data.length = len)
    (hlen : len ≤ 65535) (ht1 : 1 ≤ tid) (ht5 : tid ≤ 5) :
    (sendMessageTo allOk tid data len c).2.2.length = 1 + (len - min len 4 + 5) / 6 ∧
    ((sendMessageTo allOk tid data len c).2.2.getD 0 ⟨0, 0, []⟩).can_dlc = 4 + min len 4 ∧
    ∀ k, k + 1 < (sendMessageTo allOk tid data len c).2.2.length →
      (sendMessageTo allOk tid data len c).2.2.getD (k + 1) ⟨0, 0, []⟩
        = contFrameAt (CAN_BASE_ID + tid) data len 0 (min len 4) k := by
  unfold sendMessageTo
  rw [if_neg (show ¬ (tid < 1 ∨ 5 < tid) by omega)]
  rw [if_neg (show ¬ 65535 < len by omega)]
  dsimp only
  rw [sendFrame_allOk c]
  dsimp only
  have hfc : (if 4 ≤ len then 4 else len) = min len 4 := by
    split <;> omega
  rw [hfc]
  obtain ⟨hL, hS⟩ := sendContLoop_shape data (CAN_BASE_ID + tid) len len (min len 4) 0 (c + 1)
    (by omega)
  refine ⟨?_, ?_, ?_⟩
  · simp only [List.length_cons, hL]
    omega
  · simp only [List.getD_cons_zero]
  · intro k hk
    simp only [List.length_cons, hL] at hk
    simp only [List.getD_cons_succ]
    exact hS k (by rw [hL]; omega)

-- round trip specialised to byte-valued messages (every byte < 256)
theorem roundTrip_bytes (data : List Nat) (len tid c : Nat) (hd : data.length = len)
    (hcap : len ≤ MAX_MESSAGE) (ht1 : 1 ≤ tid) (ht5 : tid ≤ 5)
    (hb : ∀ b ∈ data, b < 256) :
    (sendMessageTo allOk tid data len c).1 = true ∧
    (runFrames initRxState (sendMessageTo allOk tid data len c).2.2).2.1.getLast?
      = some (RxOutput.complete data) ∧
    (runFrames initRxState (sendMessageTo allOk tid data len c).2.2).1 = initRxState := by
  obtain ⟨h1, h2⟩ := roundTrip_core data len tid c hd hcap ht1 ht5
  have hmap : data.map (· % 256) = data := by
    have hcg : data.map (· % 256) = data.map id :=
      List.map_congr_left (fun b hbm => Nat.mod_eq_of_lt (hb b hbm))
    rw [hcg, List.map_id]
  refine ⟨h1, ?_, ?_⟩
  · rw [h2]
    dsimp only
    rw [hmap]
    exact List.getLast?_concat _
  · rw [h2]
    rfl

-- ---------------------------------------------------------------------
-- Claim C1
-- ---------------------------------------------------------------------

/-- Claim C1: for every byte sequence of length 0, 1, 4, 10 or 2048, the
frame sequence produced by sendMessageTo over a fault-free link, fed in
order into the Reassembler, ends in a Complete output whose reconstructed
message equals the original byte sequence, and the Reassembler returns to
the initial (Idle) state. -/
theorem spec_C1 (msg : List Nat) (hb : ∀ b ∈ msg, b < 256)
    (hlen : msg.length = 0 ∨ msg.length = 1 ∨ msg.length = 4 ∨ msg.length = 10
      ∨ msg.length = 2048) :
    (sendMessageTo allOk 1 msg msg.length 0).1 = true ∧
    (runFrames initRxState (sendMessageTo allOk 1 msg msg.length 0).2.2).2.1.getLast?
      = some (RxOutput.complete msg) ∧
    (runFrames initRxState (sendMessageTo allOk 1 msg msg.length 0).2.2).1 = initRxState := by
  have hcap : msg.length ≤ MAX_MESSAGE := by
    show msg.length ≤ 2048
    rcases hlen with h | h | h | h | h <;> omega
  exact roundTrip_bytes msg msg.length 1 0 rfl hcap (by omega) (by omega) hb

/-- Witness for spec_C1 at the 10-byte message of 65s. -/
theorem spec_C1_witness :
    ((List.replicate 10 65).length = 10 ∧ ∀ b ∈ List.replicate 10 65, b < 256) ∧
    ((sendMessageTo allOk 1 (List.replicate 10 65) (List.replicate 10 65).length 0).1 = true ∧
      (runFrames initRxState
          (sendMessageTo allOk 1 (List.replicate 10 65)
            (List.replicate 10 65).length 0).2.2).2.1.getLast?
        = some (RxOutput.complete (List.replicate 10 65)) ∧
      (runFrames initRxState
          (sendMessageTo allOk 1 (List.replicate 10 65)
            (List.replicate 10 65).length 0).2.2).1 = initRxState) :=
  ⟨⟨by rw [List.length_replicate], fun b hbm => by rw [List.eq_of_mem_replicate hbm]; omega⟩,
   spec_C1 (List.replicate 10 65)
     (fun b hbm => by rw [List.eq_of_mem_replicate hbm]; omega)
     (Or.inr (Or.inr (Or.inr (Or.inl (by rw [List.length_replicate])))))⟩

-- ---------------------------------------------------------------------
-- Claim C4 (corrected)
-- ---------------------------------------------------------------------

theorem contFrameAt_seq (canId : Nat) (data : List Nat) (len seq offset k : Nat) :
    (contFrameAt canId data len seq offset k).data.getD 1 0 = (seq + k + 1) % 256 := by
  unfold contFrameAt
  simp

/-- Claim C4 counterexample: the sender's sequence counter is a uint8_t, so
for a 1535-byte message (which needs 256 continuation frames) the 256th
continuation frame carries sequence number 0 while the 255th carries 255:
the sequence numbers are not strictly increasing. -/
theorem spec_C4_cex :
    ((sendMessageTo allOk 1 (List.replicate 1535 0) 1535 0).2.2.getD 255
        ⟨0, 0, []⟩).data.getD 1 0 = 255 ∧
    ((sendMessageTo allOk 1 (List.replicate 1535 0) 1535 0).2.2.getD 256
        ⟨0, 0, []⟩).data.getD 1 0 = 0 := by
  obtain ⟨hL, _, hS⟩ := sendMessageTo_shape (List.replicate 1535 0) 1535 1 0
    (by rw [List.length_replicate]) (by omega) (by omega) (by omega)
  constructor
  · rw [show (255 : Nat) = 254 + 1 from rfl, hS 254 (by rw [hL]; norm_num)]
    rw [contFrameAt_seq]
  · rw [show (256 : Nat) = 255 + 1 from rfl, hS 255 (by rw [hL]; norm_num)]
    rw [contFrameAt_seq]

/-- Claim C4 (amended): for every accepted message of length len, the start
frame carries min(len, 4) bytes, and the continuation frames each carry
min(remaining, 6) bytes with sequence numbers that increment modulo 256
beginning at 1 (the sender stores the counter in a uint8_t); the numbers
are strictly increasing whenever the message needs at most 255
continuation frames, i.e. len ≤ 1534. -/
theorem spec_C4 (data : List Nat) (len tid c : Nat) (hd : data.length = len)
    (hlen : len ≤ 65535) (ht1 : 1 ≤ tid) (ht5 : tid ≤ 5) :
    (sendMessageTo allOk tid data len c).2.2.length = 1 + (len - min len 4 + 5) / 6 ∧
    ((sendMessageTo allOk tid data len c).2.2.getD 0 ⟨0, 0, []⟩).can_dlc = 4 + min len 4 ∧
    (∀ k, k + 1 < (sendMessageTo allOk tid data len c).2.2.length →
      (sendMessageTo allOk tid data len c).2.2.getD (k + 1) ⟨0, 0, []⟩
        = contFrameAt (CAN_BASE_ID + tid) data len 0 (min len 4) k) ∧
    (len ≤ 1534 → ∀ j k, j < k → k + 1 < (sendMessageTo allOk tid data len c).2.2.length →
      ((sendMessageTo allOk tid data len c).2.2.getD (j + 1) ⟨0, 0, []⟩).data.getD 1 0
        < ((sendMessageTo allOk tid data len c).2.2.getD (k + 1) ⟨0, 0, []⟩).data.getD 1 0) := by
  obtain ⟨hL, hdlc0, hS⟩ := sendMessageTo_shape data len tid c hd hlen ht1 ht5
  have hseq : ∀ k, k + 1 < (sendMessageTo allOk tid data len c).2.2.length →
      ((sendMessageTo allOk tid data len c).2.2.getD (k + 1) ⟨0, 0, []⟩).data.getD 1 0
        = (k + 1) % 256 := by
    intro k hk
    rw [hS k hk]
    rw [contFrameAt_seq]
    simp only [Nat.zero_add]
  refine ⟨hL, hdlc0, hS, ?_⟩
  intro h1534 j k hjk hk
  have hj : j + 1 < (sendMessageTo allOk tid data len c).2.2.length := by omega
  rw [hseq j hj, hseq k hk]
  rw [hL] at hk
  have hkb : k + 1 ≤ 255 := by omega
  have hjb : j + 1 ≤ 255 := by omega
  rw [Nat.mod_eq_of_lt (by omega), Nat.mod_eq_of_lt (by omega)]
  omega

/-- Witness for spec_C4 at a 20-byte message. -/
theorem spec_C4_witness :
    ((List.replicate 20 7).length = 20 ∧ 20 ≤ 65535 ∧ 1 ≤ 1 ∧ 1 ≤ 5) ∧
    ((sendMessageTo allOk 1 (List.replicate 20 7) 20 0).2.2.length
        = 1 + (20 - min 20 4 + 5) / 6 ∧
      ((sendMessageTo allOk 1 (List.replicate 20 7) 20 0).2.2.getD 0 ⟨0, 0, []⟩).can_dlc
        = 4 + min 20 4 ∧
      (∀ k, k + 1 < (sendMessageTo allOk 1 (List.replicate 20 7) 20 0).2.2.length →
        (sendMessageTo allOk 1 (List.replicate 20 7) 20 0).2.2.getD (k + 1) ⟨0, 0, []⟩
          = contFrameAt (CAN_BASE_ID + 1) (List.replicate 20 7) 20 0 (min 20 4) k) ∧
      (20 ≤ 1534 → ∀ j k, j < k →
        k + 1 < (sendMessageTo allOk 1 (List.replicate 20 7) 20 0).2.2.length →
        ((sendMessageTo allOk 1 (List.replicate 20 7) 20 0).2.2.getD (j + 1)
            ⟨0, 0, []⟩).data.getD 1 0
          < ((sendMessageTo allOk 1 (List.replicate 20 7) 20 0).2.2.getD (k + 1)
              ⟨0, 0, []⟩).data.getD 1 0)) :=
  ⟨⟨by rw [List.length_replicate], by omega, by omega, by omega⟩,
   spec_C4 (List.replicate 20 7) 20 1 0 (by rw [List.length_replicate]) (by omega)
     (by omega) (by omega)⟩

-- ---------------------------------------------------------------------
-- Claim C5
-- ---------------------------------------------------------------------

/-- Claim C5: a start frame declaring totalLength 2049 (capacity + 1,
encoded as low byte 1, high byte 8) received in the Idle state is rejected
with ExceedsCapacity, leaving the Reassembler Idle with no bytes
accumulated and no buffer writes; a declared totalLength equal to the
capacity 2048 is accepted and the assembly proceeds to a successful
Complete of the full 2048-byte message, returning to Idle. -/
theorem spec_C5 (msg : List Nat) (hb : ∀ b ∈ msg, b < 256) (hl : msg.length = 2048) :
    handleStartFrame initRxState { can_id := 0x201, can_dlc := 4, data := [0xAA, 1, 8, 0] }
      = { st := resetAssembly, out := RxOutput.exceedsCapacity, writes := [] } ∧
    (sendMessageTo allOk 1 msg 2048 0).1 = true ∧
    (runFrames initRxState (sendMessageTo allOk 1 msg 2048 0).2.2).2.1.getLast?
      = some (RxOutput.complete msg) ∧
    (runFrames initRxState (sendMessageTo allOk 1 msg 2048 0).2.2).1 = initRxState := by
  have hrt := roundTrip_bytes msg 2048 1 0 hl (by decide) (by omega) (by omega) hb
  exact ⟨by decide, hrt.1, hrt.2.1, hrt.2.2⟩

/-- Witness for spec_C5 at the 2048-byte message of 66s. -/
theorem spec_C5_witness :
    ((∀ b ∈ List.replicate 2048 66, b < 256) ∧ (List.replicate 2048 66).length = 2048) ∧
    (handleStartFrame initRxState { can_id := 0x201, can_dlc := 4, data := [0xAA, 1, 8, 0] }
        = { st := resetAssembly, out := RxOutput.exceedsCapacity, writes := [] } ∧
      (sendMessageTo allOk 1 (List.replicate 2048 66) 2048 0).1 = true ∧
      (runFrames initRxState
          (sendMessageTo allOk 1 (List.replicate 2048 66) 2048 0).2.2).2.1.getLast?
        = some (RxOutput.complete (List.replicate 2048 66)) ∧
      (runFrames initRxState
          (sendMessageTo allOk 1 (List.replicate 2048 66) 2048 0).2.2).1 = initRxState) :=
  ⟨⟨fun b hbm => by rw [List.eq_of_mem_replicate hbm]; omega, by rw [List.length_replicate]⟩,
   spec_C5 (List.replicate 2048 66)
     (fun b hbm => by rw [List.eq_of_mem_replicate hbm]; omega)
     (by rw [List.length_replicate])⟩

-- ---------------------------------------------------------------------
-- Claim C6
-- ---------------------------------------------------------------------

/-- Claim C6: a continuation frame received while Assembling whose declared
sequence number differs from nextSeq aborts with SequenceMismatch and
resets the state fully to the reset (Idle) state; from that reset state a
subsequent correctly-formed message (of any length up to the capacity, sent
over a fault-free link) still assembles to Complete. -/
theorem spec_C6 (st : RxState) (frm : can_frame) (msg : List Nat)
    (ha : st.assembling = true) (hdlc : 2 ≤ frm.can_dlc)
    (hs : byteAt frm 1 ≠ st.nextSeq)
    (hb : ∀ b ∈ msg, b < 256) (hlen : msg.length ≤ 2048) :
    handleContFrame st frm
      = { st := resetAssembly, out := RxOutput.seqMismatch, writes := [] } ∧
    (sendMessageTo allOk 1 msg msg.length 0).1 = true ∧
    (runFrames resetAssembly (sendMessageTo allOk 1 msg msg.length 0).2.2).2.1.getLast?
      = some (RxOutput.complete msg) ∧
    (runFrames resetAssembly (sendMessageTo allOk 1 msg msg.length 0).2.2).1
      = resetAssembly := by
  have hrt := roundTrip_bytes msg msg.length 1 0 rfl (by show msg.length ≤ 2048; omega)
    (by omega) (by omega) hb
  refine ⟨?_, hrt.1, hrt.2.1, hrt.2.2⟩
  unfold handleContFrame
  rw [ha]
  rw [if_neg (by simp)]
  rw [if_neg (by omega)]
  rw [if_pos hs]

/-- Witness for spec_C6 at a concrete mid-assembly state, a mismatching
continuation frame and a 3-byte follow-up message. -/
theorem spec_C6_witness :
    ((⟨10, 4, 2, true, [1, 2, 3, 4]⟩ : RxState).assembling = true ∧
      2 ≤ (⟨0x201, 8, [0xCC, 5, 0, 0, 0, 0, 0, 0]⟩ : can_frame).can_dlc ∧
      byteAt (⟨0x201, 8, [0xCC, 5, 0, 0, 0, 0, 0, 0]⟩ : can_frame) 1
        ≠ ((⟨10, 4, 2, true, [1, 2, 3, 4]⟩ : RxState)).nextSeq ∧
      ([7, 8, 9] : List Nat).length ≤ 2048) ∧
    (handleContFrame (⟨10, 4, 2, true, [1, 2, 3, 4]⟩ : RxState)
        (⟨0x201, 8, [0xCC, 5, 0, 0, 0, 0, 0, 0]⟩ : can_frame)
      = { st := resetAssembly, out := RxOutput.seqMismatch, writes := [] } ∧
      (sendMessageTo allOk 1 [7, 8, 9] ([7, 8, 9] : List Nat).length 0).1 = true ∧
      (runFrames resetAssembly
          (sendMessageTo allOk 1 [7, 8, 9] ([7, 8, 9] : List Nat).length 0).2.2).2.1.getLast?
        = some (RxOutput.complete [7, 8, 9]) ∧
      (runFrames resetAssembly
          (sendMessageTo allOk 1 [7, 8, 9] ([7, 8, 9] : List Nat).length 0).2.2).1
        = resetAssembly) :=
  ⟨⟨rfl, by decide, by decide, by decide⟩,
   spec_C6 _ _ [7, 8, 9] rfl (by decide) (by decide) (by decide) (by decide)⟩

-- ---------------------------------------------------------------------
-- Claim C10 (code bug)
-- ---------------------------------------------------------------------

/-- Claim C10 is violated by the code: when a message whose declared length
equals the full capacity MAX_MESSAGE = 2048 completes, the receiver
executes buffer[receivedLen] = 0 with receivedLen = 2048, writing one
past the end of the 2048-byte buffer.  Concretely, replaying the frames of
a 2048-byte message records a final buffer write at index 2048, which is
not a valid index of buffer[MAX_MESSAGE]. -/
theorem spec_C10_bug :
    (runFrames initRxState
        (sendMessageTo allOk 1 (List.replicate 2048 65) 2048 0).2.2).2.2.getLast?
      = some 2048 ∧
    MAX_MESSAGE = 2048 := by
  obtain ⟨h1, h2⟩ := roundTrip_core (List.replicate 2048 65) 2048 1 0
    (by rw [List.length_replicate]) (by decide) (by omega) (by omega)
  refine ⟨?_, rfl⟩
  rw [h2]
  exact List.getLast?_concat _
